import Mathlib

/-!
Verification of the voting and deadline-classification logic of the
bds-planner dashboard.

The embedded code comes from two components:

* `ProgressSummary.tsx` — completion rate, due-today / overdue counters,
  the urgent-deadline list and the urgency badge (deadline classifier);
* `IdeaVotingBoard` — the per-user vote cache (`userVotes`), the
  duplicate-vote check and persistence steps of `handleVote`, and the
  client-side idea sorting (`sortedIdeas`).

Modelling conventions:

* JS instants (`new Date()`, `getTime()`) are integers counting minutes
  since the epoch; a calendar day is `t.fdiv 1440` (floor division, as JS
  day boundaries floor negative instants too).
* A due-date / timestamp string is represented by its parse outcome
  (`DateStr`): the code only ever truthiness-tests such strings and parses
  them, so this abstraction preserves every observable the code uses.
  `parseISO` of a date-only string yields local midnight of that day;
  an invalid or empty string parses to `none` (JS `NaN` / Invalid Date).
  `new Date(s).getTime()` differs from `parseISO(s)` only by the constant
  UTC offset, which cancels in every subtraction the code performs, so both
  are modelled by `parseISO`.
* `Array.prototype.sort(cmp)` is modelled by a stable insertion sort
  (`jsSort`); ECMAScript guarantees stability and coerces a `NaN`
  comparator result to `+0`, which the model applies via `Option.getD 0`.
* JS numbers reached by the claims are integers except `completionRate`,
  which is modelled over `ℚ` (the claim's two-decimal tolerance absorbs
  the float/rational gap).
* `handleVote` is modelled on its non-failing path: the remote store is a
  record `Db` threaded explicitly, and each `await supabase...` write is a
  pure update of that record.
-/

namespace BdsPlanner

/-! ## JS array sort, modelled as a stable insertion sort -/

/-- One insertion step: `x` moves right past every element `y` with
`cmp x y > 0` and stops in front of the first element with `cmp x y ≤ 0`,
so equal elements keep their relative order (stability). -/
def jsInsert {α : Type} (cmp : α → α → Int) (x : α) : List α → List α
  | [] => [x]
  | y :: ys => if cmp x y > 0 then y :: jsInsert cmp x ys else x :: y :: ys

/-- Model of `array.sort(cmp)`: a stable sort by the comparator.  Elements
are inserted from the right, so each element is placed before the equal
elements that followed it in the input. -/
def jsSort {α : Type} (cmp : α → α → Int) (l : List α) : List α :=
  l.foldr (jsInsert cmp) []

/-- JS subtraction on possibly-NaN numbers: `NaN` propagates. -/
def subNaN : Option Int → Option Int → Option Int
  | some a, some b => some (a - b)
  | _, _ => none

/-! ## Dates and instants -/

/-- Abstraction of a date string as the code observes it: `empty` is a
falsy string, `invalid` a non-empty string that does not parse, and
`valid d` a date-only ISO string for calendar day `d` (days since epoch). -/
inductive DateStr : Type
  | empty
  | invalid
  | valid (day : Int)
deriving DecidableEq

/-- JS truthiness of the underlying string. -/
def DateStr.truthy : DateStr → Bool
  | .empty => false
  | _ => true

/-- Model of `parseISO`: a date-only string parses to local midnight of its
calendar day (instants are minutes since epoch); anything else is Invalid
Date (`none`). -/
def parseISO : DateStr → Option Int
  | .valid d => some (d * 1440)
  | _ => none

/-- Calendar day containing an instant (minutes since epoch).  JS day
boundaries floor; for the positive divisor 1440 Euclidean division is floor
division. -/
def dayOf (t : Int) : Int := t / 1440

/-- Model of date-fns `isToday`: same calendar day as `now`; false on
Invalid Date (every NaN comparison is false). -/
def isToday (t : Option Int) (now : Int) : Bool :=
  match t with
  | some t => dayOf t == dayOf now
  | none => false

/-- Model of date-fns `isTomorrow`: calendar day after `now`'s; false on
Invalid Date. -/
def isTomorrow (t : Option Int) (now : Int) : Bool :=
  match t with
  | some t => dayOf t == dayOf now + 1
  | none => false

/-- Model of date-fns `isBefore`: strict comparison of instants; false on
Invalid Date. -/
def isBefore (t : Option Int) (now : Int) : Bool :=
  match t with
  | some t => decide (t < now)
  | none => false

/-! ## Tasks (action items) and the deadline classifier -/

/-- Task status: `'To Do' | 'Done'`. -/
inductive Status : Type
  | todo
  | done
deriving DecidableEq

/-- `ActionItem` record from `ProgressSummary.tsx`. -/
structure ActionItem : Type where
  id : String
  description : String
  assignee : String
  due_date : DateStr
  status : Status
  meeting_id : Option String
deriving DecidableEq

/-- Deadline bucket of the specification. -/
inductive Bucket : Type
  | overdue
  | dueToday
  | dueTomorrow
  | none
deriving DecidableEq

/-- `getUrgencyBadge` from `ProgressSummary.tsx`: parse the due date, then
test `isBefore(date, new Date())`, `isToday(date)`, `isTomorrow(date)` in
that order; no badge otherwise. -/
def getUrgencyBadge (dueDate : DateStr) (now : Int) : Bucket :=
  let date := parseISO dueDate
  if isBefore date now then .overdue
  else if isToday date now then .dueToday
  else if isTomorrow date now then .dueTomorrow
  else .none

/-- Whole-task classification: every bucket consumer in the component
(`todayTasks`, `overdueTasks`, `urgentDeadlines`) first filters
`status === 'To Do'`, and `getUrgencyBadge` orders the buckets, so a done
task falls in no bucket and an open task gets the badge's bucket. -/
def classify (item : ActionItem) (now : Int) : Bucket :=
  if item.status == .done then .none else getUrgencyBadge item.due_date now

/-- `todayTasks` filter: `status === 'To Do' && due_date && isToday(parseISO(due_date))`. -/
def todayTasks (items : List ActionItem) (now : Int) : List ActionItem :=
  items.filter fun item =>
    item.status == .todo && item.due_date.truthy && isToday (parseISO item.due_date) now

/-- `overdueTasks` filter: `status === 'To Do' && due_date && isBefore(parseISO(due_date), new Date())`. -/
def overdueTasks (items : List ActionItem) (now : Int) : List ActionItem :=
  items.filter fun item =>
    item.status == .todo && item.due_date.truthy && isBefore (parseISO item.due_date) now

/-- Filter of `urgentDeadlines`: `if (!item.due_date) return false;` then
`status === 'To Do' && (isToday(dueDate) || isTomorrow(dueDate))`. -/
def urgentPred (now : Int) (item : ActionItem) : Bool :=
  item.due_date.truthy &&
    (item.status == .todo &&
      (isToday (parseISO item.due_date) now || isTomorrow (parseISO item.due_date) now))

/-- Comparator of `urgentDeadlines`:
`new Date(a.due_date).getTime() - new Date(b.due_date).getTime()`, with the
NaN result coerced to `+0` by the sort. -/
def dueCmp (a b : ActionItem) : Int :=
  (subNaN (parseISO a.due_date) (parseISO b.due_date)).getD 0

/-- `urgentDeadlines`: filter, sort ascending by due instant, `slice(0, 5)`. -/
def urgentDeadlines (items : List ActionItem) (now : Int) : List ActionItem :=
  (jsSort dueCmp (items.filter (urgentPred now))).take 5

/-- `completionRate`: `totalTasks > 0 ? (completedTasks / totalTasks) * 100 : 0`,
over `ℚ` (see the modelling note on JS floats). -/
def completionRate (items : List ActionItem) : ℚ :=
  let totalTasks := items.length
  let completedTasks := (items.filter fun item => item.status == .done).length
  if totalTasks > 0 then ((completedTasks : ℚ) / (totalTasks : ℚ)) * 100 else 0

/-! ## Ideas and idea sorting -/

/-- `Idea` record from `IdeaVotingBoard`.  `created_at` is the parse
outcome of the optional timestamp string: `none` models a missing field
(the code substitutes `''`, which parses to Invalid Date / NaN) as well as
an unparsable one; `some t` is the parsed instant. -/
structure Idea : Type where
  id : String
  title : String
  description : String
  proposer : String
  votes : Int
  created_at : Option Int
deriving DecidableEq

/-- Sort key selected in the UI: `'votes' | 'newest'`. -/
inductive SortKey : Type
  | votes
  | newest
deriving DecidableEq

/-- Comparator of `sortedIdeas`: `b.votes - a.votes` for `'votes'`, else
`new Date(b.created_at || '').getTime() - new Date(a.created_at || '').getTime()`;
a NaN comparator result is coerced to `+0` by the sort. -/
def ideaCmp (key : SortKey) (a b : Idea) : Int :=
  match key with
  | .votes => b.votes - a.votes
  | .newest => (subNaN b.created_at a.created_at).getD 0

/-- `sortedIdeas`: `[...ideas].sort(cmp)` with the selected comparator. -/
def sortedIdeas (key : SortKey) (ideas : List Idea) : List Idea :=
  jsSort (ideaCmp key) ideas

/-! ## Votes -/

/-- Vote kind: `'upvote' | 'downvote'`. -/
inductive VoteType : Type
  | upvote
  | downvote
deriving DecidableEq

/-- `IdeaVote` row as fetched into the client cache. -/
structure IdeaVote : Type where
  id : String
  idea_id : String
  user_id : String
  vote_type : VoteType
deriving DecidableEq

/-- The `userVotes` cache: `Record<string, IdeaVote[]>`, a map from idea id
to that idea's votes by the current user, modelled as an association list
(JS object keys are unique and keep insertion order). -/
def VoteIndex : Type := List (String × List IdeaVote)

/-- Lookup `index[ideaId]` in the cache. -/
def lookupVotes (index : VoteIndex) (ideaId : String) : Option (List IdeaVote) :=
  match index with
  | [] => Option.none
  | (k, g) :: rest => if k == ideaId then some g else lookupVotes rest ideaId

/-- One step of the grouping reduce in `fetchUserVotes`:
`if (!acc[vote.idea_id]) acc[vote.idea_id] = []; acc[vote.idea_id].push(vote)`.
A new key is appended at the end (JS object insertion order). -/
def pushVote : VoteIndex → IdeaVote → VoteIndex
  | [], v => [(v.idea_id, [v])]
  | (k, g) :: rest, v =>
    if k == v.idea_id then (k, g ++ [v]) :: rest else (k, g) :: pushVote rest v

/-- `indexVotesByIdea`: the `data.reduce(...)` grouping votes by idea id,
preserving input order within each group. -/
def indexVotesByIdea (votes : List IdeaVote) : VoteIndex :=
  votes.foldl pushVote []

/-- `hasVoted`, as the vote buttons compute it:
`(userVotes[idea.id] || []).some(vote => vote.vote_type === kind)`. -/
def hasVoted (index : VoteIndex) (ideaId : String) (kind : VoteType) : Bool :=
  ((lookupVotes index ideaId).getD []).any fun vote => vote.vote_type == kind

/-- Rejection reason of the duplicate-vote check. -/
inductive VoteError : Type
  | alreadyVoted
deriving DecidableEq

/-- The duplicate-vote check at the head of `handleVote`:
`existingVotes.find(vote => vote.vote_type === voteType)` rejects with
"Already voted" when a vote of that exact kind is cached. -/
def validateVote (index : VoteIndex) (ideaId : String) (kind : VoteType) :
    Except VoteError Unit :=
  let existingVotes := (lookupVotes index ideaId).getD []
  match existingVotes.find? (fun vote => vote.vote_type == kind) with
  | some _ => .error .alreadyVoted
  | Option.none => .ok ()

/-- Insert payload of the `idea_votes` write (the row id is generated by
the store and never read by this code). -/
structure VoteRow : Type where
  idea_id : String
  user_id : String
  vote_type : VoteType
deriving DecidableEq

/-- The remote store as `handleVote` touches it: the `idea_votes` table and
the `ideas` table (its `votes` column). -/
structure Db : Type where
  idea_votes : List VoteRow
  ideas : List Idea
deriving DecidableEq

/-- How `handleVote` returns: early rejection, silent return after the vote
insert when the idea is absent from the snapshot (`if (!currentIdea) return;`),
or the full success path. -/
inductive VoteOutcome : Type
  | alreadyVoted
  | insertedOnly
  | success
deriving DecidableEq

/-- `voteChange = voteType === 'upvote' ? 1 : -1` applied to
`currentIdea.votes`. -/
def applyVoteDelta (currentCount : Int) (kind : VoteType) : Int :=
  currentCount + (match kind with | .upvote => 1 | .downvote => -1)

/-- `handleVote` on its non-failing path: check the cached votes, insert the
vote row, look the idea up in the `ideas` prop snapshot, and update its
vote count in the store.  Returns the updated store and the outcome. -/
def handleVote (userVotes : VoteIndex) (ideas : List Idea) (db : Db)
    (userId ideaId : String) (voteType : VoteType) : Db × VoteOutcome :=
  let existingVotes := (lookupVotes userVotes ideaId).getD []
  match existingVotes.find? (fun vote => vote.vote_type == voteType) with
  | some _ => (db, .alreadyVoted)
  | Option.none =>
    let db1 : Db := { db with idea_votes := db.idea_votes ++ [⟨ideaId, userId, voteType⟩] }
    match ideas.find? (fun idea => idea.id == ideaId) with
    | Option.none => (db1, .insertedOnly)
    | some currentIdea =>
      let db2 : Db :=
        { db1 with
          ideas := db1.ideas.map fun idea =>
            if idea.id == ideaId then
              { idea with votes := applyVoteDelta currentIdea.votes voteType }
            else idea }
      (db2, .success)

/-! ## Concrete inputs used by the theorems below -/

/-- Task with the given status and due date (the other fields are irrelevant
to classification). -/
def mkTask (s : Status) (d : DateStr) : ActionItem :=
  ⟨"", "", "", d, s, Option.none⟩

/-- Calendar day of 2024-06-09 (days since 1970-01-01). -/
def day20240609 : Int := 19883

/-- Calendar day of 2024-06-10. -/
def day20240610 : Int := 19884

/-- Calendar day of 2024-06-11. -/
def day20240611 : Int := 19885

/-- Idea "A" with no creation timestamp. -/
def ideaNoTs : Idea := ⟨"A", "", "", "", 0, Option.none⟩

/-- Idea "B" created at instant 100. -/
def ideaWithTs : Idea := ⟨"B", "", "", "", 0, some 100⟩

/-- Idea "A" with 5 votes. -/
def ideaA5 : Idea := ⟨"A", "", "", "", 5, Option.none⟩

/-- Idea "B" with 5 votes. -/
def ideaB5 : Idea := ⟨"B", "", "", "", 5, Option.none⟩

/-- Idea "C" with 3 votes. -/
def ideaC3 : Idea := ⟨"C", "", "", "", 3, Option.none⟩

/-- Idea "C" created at instant 50. -/
def ideaTs50 : Idea := ⟨"C", "", "", "", 0, some 50⟩

/-- An upvote by user-1 on idea-1. -/
def voteUp1 : IdeaVote := ⟨"v1", "idea-1", "user-1", .upvote⟩

/-- Task due on day 1, open. -/
def taskDay1 : ActionItem := mkTask .todo (.valid 1)

/-- Task due on day 2, open. -/
def taskDay2 : ActionItem := mkTask .todo (.valid 2)

/-! ## Generic lemmas about the sort model -/

theorem mem_jsInsert {α : Type} (cmp : α → α → Int) (x a : α) (l : List α) :
    a ∈ jsInsert cmp x l ↔ a = x ∨ a ∈ l := by
  induction l with
  | nil => simp [jsInsert]
  | cons y ys ih =>
    simp only [jsInsert]
    by_cases h : cmp x y > 0
    · rw [if_pos h]
      simp only [List.mem_cons, ih]
      tauto
    · rw [if_neg h]
      simp [List.mem_cons]

theorem jsInsert_perm {α : Type} (cmp : α → α → Int) (x : α) (l : List α) :
    (jsInsert cmp x l).Perm (x :: l) := by
  induction l with
  | nil => simp [jsInsert]
  | cons y ys ih =>
    simp only [jsInsert]
    by_cases h : cmp x y > 0
    · rw [if_pos h]
      exact (ih.cons y).trans (List.Perm.swap x y ys)
    · rw [if_neg h]

theorem jsSort_perm {α : Type} (cmp : α → α → Int) (l : List α) :
    (jsSort cmp l).Perm l := by
  induction l with
  | nil => simp [jsSort]
  | cons x xs ih =>
    have hstep : jsSort cmp (x :: xs) = jsInsert cmp x (jsSort cmp xs) := rfl
    rw [hstep]
    exact (jsInsert_perm cmp x (jsSort cmp xs)).trans (ih.cons x)

theorem mem_jsSort {α : Type} (cmp : α → α → Int) (l : List α) (a : α) :
    a ∈ jsSort cmp l ↔ a ∈ l :=
  (jsSort_perm cmp l).mem_iff

theorem jsInsert_pairwise {α : Type} (cmp : α → α → Int) (x : α) (l : List α)
    (hA : ∀ y ∈ l, cmp x y > 0 → cmp y x ≤ 0)
    (hT : ∀ y ∈ l, ∀ z ∈ l, cmp x y ≤ 0 → cmp y z ≤ 0 → cmp x z ≤ 0)
    (hp : l.Pairwise fun a b => cmp a b ≤ 0) :
    (jsInsert cmp x l).Pairwise fun a b => cmp a b ≤ 0 := by
  induction l with
  | nil => simp [jsInsert]
  | cons y ys ih =>
    rw [List.pairwise_cons] at hp
    obtain ⟨hy, hys⟩ := hp
    simp only [jsInsert]
    by_cases h : cmp x y > 0
    · rw [if_pos h, List.pairwise_cons]
      refine ⟨?_, ?_⟩
      · intro b hb
        rcases (mem_jsInsert cmp x b ys).mp hb with rfl | hb2
        · exact hA y (by simp) h
        · exact hy b hb2
      · exact ih (fun a ha hgt => hA a (by simp [ha]) hgt)
          (fun a ha b hb => hT a (by simp [ha]) b (by simp [hb])) hys
    · rw [if_neg h, List.pairwise_cons]
      have hxy : cmp x y ≤ 0 := by omega
      refine ⟨?_, ?_⟩
      · intro b hb
        rcases List.mem_cons.mp hb with rfl | hb2
        · exact hxy
        · exact hT y (by simp) b (by simp [hb2]) hxy (hy b hb2)
      · rw [List.pairwise_cons]
        exact ⟨hy, hys⟩

theorem jsSort_pairwise {α : Type} (cmp : α → α → Int) (l : List α)
    (hA : ∀ a ∈ l, ∀ b ∈ l, cmp a b > 0 → cmp b a ≤ 0)
    (hT : ∀ a ∈ l, ∀ b ∈ l, ∀ c ∈ l, cmp a b ≤ 0 → cmp b c ≤ 0 → cmp a c ≤ 0) :
    (jsSort cmp l).Pairwise fun a b => cmp a b ≤ 0 := by
  induction l with
  | nil => simp [jsSort]
  | cons x xs ih =>
    have hstep : jsSort cmp (x :: xs) = jsInsert cmp x (jsSort cmp xs) := rfl
    rw [hstep]
    have hmem : ∀ a, a ∈ jsSort cmp xs → a ∈ x :: xs := fun a ha =>
      List.mem_cons_of_mem x ((jsSort_perm cmp xs).mem_iff.mp ha)
    refine jsInsert_pairwise cmp x (jsSort cmp xs) ?_ ?_ ?_
    · intro y hy hgt
      exact hA x (by simp) y (hmem y hy) hgt
    · intro y hy z hz h1 h2
      exact hT x (by simp) y (hmem y hy) z (hmem z hz) h1 h2
    · exact ih
        (fun a ha b hb hgt =>
          hA a (List.mem_cons_of_mem x ha) b (List.mem_cons_of_mem x hb) hgt)
        (fun a ha b hb c hc h1 h2 =>
          hT a (List.mem_cons_of_mem x ha) b (List.mem_cons_of_mem x hb)
            c (List.mem_cons_of_mem x hc) h1 h2)

theorem jsInsert_filter_pos {α : Type} (cmp : α → α → Int) (p : α → Bool) (x : α)
    (l : List α) (hpx : p x = true) (h : ∀ y ∈ l, p y = true → cmp x y ≤ 0) :
    (jsInsert cmp x l).filter p = x :: l.filter p := by
  induction l with
  | nil => simp [jsInsert, hpx]
  | cons y ys ih =>
    simp only [jsInsert]
    by_cases hc : cmp x y > 0
    · rw [if_pos hc]
      have hpy : p y = false := by
        cases ht : p y
        · rfl
        · exact absurd (h y (by simp) ht) (by omega)
      rw [List.filter_cons, if_neg (by simp [hpy]),
        ih (fun a ha hpa => h a (by simp [ha]) hpa),
        List.filter_cons, if_neg (by simp [hpy])]
    · rw [if_neg hc]
      rw [List.filter_cons, if_pos (by simp [hpx])]

theorem jsInsert_filter_neg {α : Type} (cmp : α → α → Int) (p : α → Bool) (x : α)
    (l : List α) (hpx : p x = false) :
    (jsInsert cmp x l).filter p = l.filter p := by
  induction l with
  | nil => simp [jsInsert, hpx]
  | cons y ys ih =>
    simp only [jsInsert]
    by_cases hc : cmp x y > 0
    · rw [if_pos hc]
      simp only [List.filter_cons, ih]
    · rw [if_neg hc]
      rw [List.filter_cons, if_neg (by simp [hpx])]

theorem jsSort_filter_eq {α : Type} (cmp : α → α → Int) (p : α → Bool) (l : List α)
    (h : ∀ a ∈ l, p a = true → ∀ b ∈ l, p b = true → cmp a b ≤ 0) :
    (jsSort cmp l).filter p = l.filter p := by
  induction l with
  | nil => rfl
  | cons x xs ih =>
    have hstep : jsSort cmp (x :: xs) = jsInsert cmp x (jsSort cmp xs) := rfl
    rw [hstep]
    have hmem : ∀ a, a ∈ jsSort cmp xs → a ∈ x :: xs := fun a ha =>
      List.mem_cons_of_mem x ((jsSort_perm cmp xs).mem_iff.mp ha)
    have ihs : (jsSort cmp xs).filter p = xs.filter p :=
      ih fun a ha hpa b hb hpb =>
        h a (List.mem_cons_of_mem x ha) hpa b (List.mem_cons_of_mem x hb) hpb
    cases hpx : p x
    · rw [jsInsert_filter_neg cmp p x _ hpx, ihs,
        List.filter_cons, if_neg (by simp [hpx])]
    · rw [jsInsert_filter_pos cmp p x _ hpx
        (fun y hy hpy => h x (by simp) hpx y (hmem y hy) hpy), ihs,
        List.filter_cons, if_pos (by simp [hpx])]

theorem find?_isSome_iff_any {α : Type} (p : α → Bool) (l : List α) :
    (l.find? p).isSome = l.any p := by
  induction l with
  | nil => rfl
  | cons x xs ih =>
    cases hpx : p x
    · rw [List.find?_cons_of_neg _ (by simp [hpx]), List.any_cons, hpx, ih]
      simp
    · rw [List.find?_cons_of_pos _ hpx, List.any_cons, hpx]
      simp

/-! ## Vote helper lemmas -/

theorem hasVoted_eq_findIsSome (index : VoteIndex) (ideaId : String) (kind : VoteType) :
    hasVoted index ideaId kind =
      (((lookupVotes index ideaId).getD []).find? fun vote => vote.vote_type == kind).isSome := by
  unfold hasVoted
  rw [find?_isSome_iff_any]

theorem validateVote_eq_check (index : VoteIndex) (ideaId : String) (kind : VoteType) :
    validateVote index ideaId kind =
      if hasVoted index ideaId kind then Except.error VoteError.alreadyVoted
      else Except.ok () := by
  rw [hasVoted_eq_findIsSome]
  unfold validateVote
  cases hfind : ((lookupVotes index ideaId).getD []).find? fun vote => vote.vote_type == kind
  · simp [hfind]
  · simp [hfind]

theorem handleVote_of_hasVoted (index : VoteIndex) (ideas : List Idea) (db : Db)
    (userId ideaId : String) (kind : VoteType) (h : hasVoted index ideaId kind = true) :
    handleVote index ideas db userId ideaId kind = (db, .alreadyVoted) := by
  rw [hasVoted_eq_findIsSome] at h
  unfold handleVote
  cases hfind : ((lookupVotes index ideaId).getD []).find? fun vote => vote.vote_type == kind
  · rw [hfind] at h
    simp at h
  · simp [hfind]

theorem lookupVotes_pushVote_self (index : VoteIndex) (v : IdeaVote) :
    lookupVotes (pushVote index v) v.idea_id =
      some (((lookupVotes index v.idea_id).getD []) ++ [v]) := by
  induction index with
  | nil => simp [pushVote, lookupVotes]
  | cons kg rest ih =>
    obtain ⟨k, g⟩ := kg
    cases hk : k == v.idea_id
    · simp [pushVote, lookupVotes, hk, ih]
    · simp [pushVote, lookupVotes, hk]

/-- C5: `applyVoteDelta` adds 1 for an upvote and subtracts 1 for a downvote,
with no lower bound enforced (the running tally may go negative); in
particular `applyVoteDelta 10 upvote = 11` and `applyVoteDelta 10 downvote = 9`. -/
theorem applyVoteDelta_spec :
    (∀ currentCount : Int,
      applyVoteDelta currentCount .upvote = currentCount + 1 ∧
      applyVoteDelta currentCount .downvote = currentCount - 1) ∧
    applyVoteDelta 10 .upvote = 11 ∧
    applyVoteDelta 10 .downvote = 9 ∧
    applyVoteDelta 0 .downvote < 0 := by
  refine ⟨fun c => ⟨rfl, ?_⟩, by decide, by decide, by decide⟩
  show c + (-1) = c - 1
  omega

/-- C2: the duplicate-vote check rejects with `AlreadyVoted` exactly when the
locally cached vote index already holds a vote of that exact kind for that
idea, and accepts otherwise; a rejected `handleVote` returns before any store
write, leaving the store unchanged; the first upvote and the first downvote
on the same idea are accepted independently and a second vote of the same
kind is rejected. -/
theorem validateVote_spec :
    (∀ (index : VoteIndex) (ideaId : String) (kind : VoteType),
      (validateVote index ideaId kind = .error .alreadyVoted ↔
        hasVoted index ideaId kind = true) ∧
      (validateVote index ideaId kind = .ok () ↔
        hasVoted index ideaId kind = false) ∧
      (∀ (ideas : List Idea) (db : Db) (userId : String),
        hasVoted index ideaId kind = true →
          handleVote index ideas db userId ideaId kind = (db, .alreadyVoted))) ∧
    validateVote [] "idea-1" .upvote = .ok () ∧
    validateVote [("idea-1", [voteUp1])] "idea-1" .downvote = .ok () ∧
    validateVote [("idea-1", [voteUp1])] "idea-1" .upvote = .error .alreadyVoted := by
  refine ⟨?_, rfl, rfl, rfl⟩
  intro index ideaId kind
  refine ⟨?_, ?_, fun ideas db userId h => handleVote_of_hasVoted _ _ _ _ _ _ h⟩
  · rw [validateVote_eq_check]
    cases h : hasVoted index ideaId kind
    · simp
    · simp
  · rw [validateVote_eq_check]
    cases h : hasVoted index ideaId kind
    · simp
    · simp

/-- C2 witness: a rejected vote leaves the store untouched, instantiated at
the single-upvote cache. -/
theorem validateVote_spec_witness :
    handleVote [("idea-1", [voteUp1])] [] ⟨[], []⟩ "user-1" "idea-1" .upvote =
      (⟨[], []⟩, .alreadyVoted) :=
  (validateVote_spec.1 [("idea-1", [voteUp1])] "idea-1" .upvote).2.2 [] ⟨[], []⟩ "user-1"
    (by decide)

/-- C8: recording an upvote by appending it to its idea's group makes
`hasVoted` true for (idea, upvote) and leaves (idea, downvote) unchanged;
appending a fetched vote row extends the grouped index by exactly this step;
and `hasVoted` holds exactly when some vote in the idea's group has the given
kind (false when the group is absent). -/
theorem hasVoted_record_spec :
    (∀ (index : VoteIndex) (v : IdeaVote), v.vote_type = .upvote →
      hasVoted (pushVote index v) v.idea_id .upvote = true ∧
      hasVoted (pushVote index v) v.idea_id .downvote =
        hasVoted index v.idea_id .downvote) ∧
    (∀ (votes : List IdeaVote) (v : IdeaVote),
      indexVotesByIdea (votes ++ [v]) = pushVote (indexVotesByIdea votes) v) ∧
    (∀ (index : VoteIndex) (ideaId : String) (kind : VoteType),
      (hasVoted index ideaId kind = true ↔
        ∃ g, lookupVotes index ideaId = some g ∧ ∃ x ∈ g, x.vote_type = kind) ∧
      (lookupVotes index ideaId = Option.none → hasVoted index ideaId kind = false)) := by
  refine ⟨?_, ?_, ?_⟩
  · intro index v hv
    constructor
    · unfold hasVoted
      rw [lookupVotes_pushVote_self]
      simp [hv]
    · unfold hasVoted
      rw [lookupVotes_pushVote_self]
      simp [List.any_append, hv]
  · intro votes v
    unfold indexVotesByIdea
    rw [List.foldl_append]
    rfl
  · intro index ideaId kind
    constructor
    · unfold hasVoted
      cases hl : lookupVotes index ideaId
      · simp
      · simp [List.any_eq_true]
    · intro hl
      unfold hasVoted
      rw [hl]
      rfl

/-- C8 witness: recording `voteUp1` on an empty index makes the upvote seen
and leaves the downvote state (false) unchanged. -/
theorem hasVoted_record_spec_witness :
    hasVoted (pushVote [] voteUp1) "idea-1" .upvote = true ∧
    hasVoted (pushVote [] voteUp1) "idea-1" .downvote = hasVoted [] "idea-1" .downvote :=
  hasVoted_record_spec.1 [] voteUp1 (by decide)

/-- C10: when the duplicate check passes but the voted idea id is absent from
the supplied ideas snapshot, `handleVote` appends the vote row to the store
and returns silently (`insertedOnly`, no error outcome) with every idea's
vote count left unchanged, so the persisted votes and the count tally
diverge for that idea. -/
theorem handleVote_missing_idea_spec :
    ∀ (index : VoteIndex) (ideas : List Idea) (db : Db) (userId ideaId : String)
      (kind : VoteType),
      hasVoted index ideaId kind = false →
      (∀ idea ∈ ideas, (idea.id == ideaId) = false) →
      handleVote index ideas db userId ideaId kind =
        ({ idea_votes := db.idea_votes ++ [⟨ideaId, userId, kind⟩],
           ideas := db.ideas }, .insertedOnly) := by
  intro index ideas db userId ideaId kind h1 h2
  rw [hasVoted_eq_findIsSome] at h1
  have hfind1 : ((lookupVotes index ideaId).getD []).find?
      (fun vote => vote.vote_type == kind) = Option.none := by
    cases hfind : ((lookupVotes index ideaId).getD []).find? fun vote => vote.vote_type == kind
    · rfl
    · rw [hfind] at h1
      simp at h1
  have hfind2 : ideas.find? (fun idea => idea.id == ideaId) = Option.none :=
    List.find?_eq_none.mpr fun idea hmem => by simp [h2 idea hmem]
  simp [handleVote, hfind1, hfind2]

/-- C10 witness: voting on "idea-1" while the snapshot only holds idea "B"
inserts the vote row and leaves the ideas table untouched. -/
theorem handleVote_missing_idea_spec_witness :
    handleVote [] [ideaWithTs] ⟨[], [ideaWithTs]⟩ "user-1" "idea-1" .upvote =
      (⟨[⟨"idea-1", "user-1", .upvote⟩], [ideaWithTs]⟩, .insertedOnly) :=
  handleVote_missing_idea_spec [] [ideaWithTs] ⟨[], [ideaWithTs]⟩ "user-1" "idea-1"
    .upvote (by decide) (by decide)

/-! ## Deadline classification -/

theorem classify_todo_valid (day now : Int) :
    classify (mkTask .todo (.valid day)) now =
      if day * 1440 < now then .overdue
      else if day * 1440 / 1440 = now / 1440 then .dueToday
      else if day * 1440 / 1440 = now / 1440 + 1 then .dueTomorrow
      else .none := by
  simp [classify, getUrgencyBadge, isBefore, isToday, isTomorrow, parseISO, dayOf, mkTask]

theorem classify_invalid_none (now : Int) (d : DateStr) (h : parseISO d = Option.none) :
    classify (mkTask .todo d) now = .none := by
  simp [classify, getUrgencyBadge, isBefore, isToday, isTomorrow, mkTask, h]

/-- C1 (counterexample): with `now` at noon of 2024-06-10, an open task due
2024-06-10 — a due date falling on today's calendar date — is classified
Overdue rather than DueToday (the parsed midnight instant is before the
`now` instant), and the task is counted in both the overdue and the
due-today buckets, so those buckets are not disjoint. -/
theorem classify_due_today_noon_counterexample :
    classify (mkTask .todo (.valid day20240610)) (day20240610 * 1440 + 720) =
      .overdue ∧
    dayOf (day20240610 * 1440) = dayOf (day20240610 * 1440 + 720) ∧
    mkTask .todo (.valid day20240610) ∈
      overdueTasks [mkTask .todo (.valid day20240610)] (day20240610 * 1440 + 720) ∧
    mkTask .todo (.valid day20240610) ∈
      todayTasks [mkTask .todo (.valid day20240610)] (day20240610 * 1440 + 720) := by
  decide

/-- C1 (amended): a done task is always classified None; an open task is
Overdue iff its parsed due instant (local midnight of the due day) is
strictly before the `now` instant, DueToday iff it is not before `now` and
falls on today's calendar date, and DueTomorrow iff it falls on tomorrow's
calendar date.  Hence the stated examples hold when `now` is the start of
2024-06-10 (and at that instant Overdue and DueToday are disjoint), but an
open task due today becomes Overdue at any later time within today. -/
theorem classify_spec_amended :
    (∀ (d : DateStr) (now : Int), classify (mkTask .done d) now = .none) ∧
    (∀ (d : DateStr) (now : Int),
      (classify (mkTask .todo d) now = .overdue ↔
        ∃ t, parseISO d = some t ∧ t < now) ∧
      (classify (mkTask .todo d) now = .dueToday ↔
        ∃ t, parseISO d = some t ∧ now ≤ t ∧ dayOf t = dayOf now) ∧
      (classify (mkTask .todo d) now = .dueTomorrow ↔
        ∃ t, parseISO d = some t ∧ dayOf t = dayOf now + 1)) ∧
    classify (mkTask .todo (.valid day20240609)) (day20240610 * 1440) = .overdue ∧
    classify (mkTask .todo (.valid day20240610)) (day20240610 * 1440) = .dueToday ∧
    classify (mkTask .todo (.valid day20240611)) (day20240610 * 1440) = .dueTomorrow ∧
    classify (mkTask .done (.valid day20240609)) (day20240610 * 1440) = .none := by
  refine ⟨?_, ?_, by decide, by decide, by decide, by decide⟩
  · intro d now
    simp [classify, mkTask]
  · intro d now
    cases d with
    | empty =>
      rw [classify_invalid_none now .empty rfl]
      simp [parseISO]
    | invalid =>
      rw [classify_invalid_none now .invalid rfl]
      simp [parseISO]
    | valid day =>
      rw [classify_todo_valid]
      unfold parseISO dayOf
      split_ifs with h1 h2 h3 <;> simp <;> omega

/-- C9: a task whose due date is missing or unparsable is excluded from the
urgent list, from the due-today count and from the overdue count; the
classifiers are total functions, so such a record is skipped rather than
raising an exception. -/
theorem invalid_due_excluded :
    ∀ (items : List ActionItem) (now : Int) (item : ActionItem),
      parseISO item.due_date = Option.none →
      item ∉ urgentDeadlines items now ∧
      item ∉ todayTasks items now ∧
      item ∉ overdueTasks items now := by
  intro items now item hinv
  have hT : isToday (parseISO item.due_date) now = false := by rw [hinv]; rfl
  have hTm : isTomorrow (parseISO item.due_date) now = false := by rw [hinv]; rfl
  have hB : isBefore (parseISO item.due_date) now = false := by rw [hinv]; rfl
  refine ⟨?_, ?_, ?_⟩
  · intro hmem
    have h1 : item ∈ jsSort dueCmp (items.filter (urgentPred now)) :=
      List.take_subset _ _ hmem
    have h2 : item ∈ items.filter (urgentPred now) := (mem_jsSort _ _ _).mp h1
    have h3 := (List.mem_filter.mp h2).2
    simp [urgentPred, hT, hTm] at h3
  · intro hmem
    have h3 := (List.mem_filter.mp hmem).2
    simp [hT] at h3
  · intro hmem
    have h3 := (List.mem_filter.mp hmem).2
    simp [hB] at h3

/-- C9 witness: a concrete open task with an unparsable due date lands in no
bucket. -/
theorem invalid_due_excluded_witness :
    mkTask .todo .invalid ∉ urgentDeadlines [mkTask .todo .invalid] 0 ∧
    mkTask .todo .invalid ∉ todayTasks [mkTask .todo .invalid] 0 ∧
    mkTask .todo .invalid ∉ overdueTasks [mkTask .todo .invalid] 0 :=
  invalid_due_excluded [mkTask .todo .invalid] 0 (mkTask .todo .invalid) rfl

/-- C6: the completion rate is `100 * done / total`, defined as 0 on an empty
list, always lies in [0, 100], and on [done, done, open] equals 66.67 up to
the claimed two-decimal tolerance. -/
theorem completionRate_spec :
    completionRate [] = 0 ∧
    (∀ items : List ActionItem,
      0 ≤ completionRate items ∧ completionRate items ≤ 100) ∧
    |completionRate
        [mkTask .done (.valid 0), mkTask .done (.valid 0), mkTask .todo (.valid 0)] -
      6667 / 100| ≤ 1 / 100 := by
  refine ⟨rfl, ?_, ?_⟩
  · intro items
    simp only [completionRate]
    by_cases h : items.length > 0
    · rw [if_pos h]
      have hk : ((items.filter fun item => item.status == Status.done).length : ℚ) ≤
          (items.length : ℚ) := by
        exact_mod_cast List.length_filter_le _ _
      have hn : (0 : ℚ) < (items.length : ℚ) := by exact_mod_cast h
      constructor
      · positivity
      · have hdiv : ((items.filter fun item => item.status == Status.done).length : ℚ) /
            (items.length : ℚ) ≤ 1 := by
          rw [div_le_one hn]
          exact hk
        nlinarith
    · rw [if_neg h]
      norm_num
  · have hval : completionRate
        [mkTask .done (.valid 0), mkTask .done (.valid 0), mkTask .todo (.valid 0)] =
        200 / 3 := by
      simp [completionRate, mkTask]
      norm_num
    rw [hval, abs_le]
    constructor <;> norm_num

/-- C7: sorting by "votes" orders ideas by descending vote count, permutes
the input, and is stable — for every vote value the subsequence of ideas
with that count is exactly the input subsequence; in particular votes
[5, 5, 3] in order [A, B, C] come out as [A, B, C]. -/
theorem sortedIdeas_votes_spec :
    (∀ ideas : List Idea,
      (sortedIdeas .votes ideas).Pairwise (fun a b => b.votes ≤ a.votes) ∧
      (sortedIdeas .votes ideas).Perm ideas ∧
      ∀ v : Int,
        (sortedIdeas .votes ideas).filter (fun idea => idea.votes == v) =
          ideas.filter (fun idea => idea.votes == v)) ∧
    sortedIdeas .votes [ideaA5, ideaB5, ideaC3] = [ideaA5, ideaB5, ideaC3] := by
  refine ⟨?_, by decide⟩
  intro ideas
  refine ⟨?_, jsSort_perm _ _, ?_⟩
  · have hp := jsSort_pairwise (ideaCmp .votes) ideas
      (fun a _ b _ hgt => by simp only [ideaCmp] at hgt ⊢; omega)
      (fun a _ b _ c _ h1 h2 => by simp only [ideaCmp] at h1 h2 ⊢; omega)
    exact hp.imp fun {a b} h => by simp only [ideaCmp] at h; omega
  · intro v
    refine jsSort_filter_eq _ _ _ ?_
    intro a _ hpa b _ hpb
    simp only [beq_iff_eq] at hpa hpb
    simp only [ideaCmp, hpa, hpb]
    omega

/-- C4 (counterexample): with input [A (no timestamp), B (timestamped)],
"newest" sorting leaves A in front of B; the claim instead requires the
missing-timestamp idea to sort after every timestamped one. -/
theorem sortedIdeas_newest_counterexample :
    sortedIdeas .newest [ideaNoTs, ideaWithTs] = [ideaNoTs, ideaWithTs] ∧
    ideaNoTs.created_at = Option.none ∧
    ideaWithTs.created_at = some 100 := by
  decide

/-- C4 (amended): "newest" orders ideas by descending creation timestamp
when every idea has one; a missing timestamp makes the comparison NaN, which
the sort coerces to 0, so such an idea compares equal to every idea and keeps
its relative input position under the stable sort instead of being treated
as the earliest possible value. -/
theorem sortedIdeas_newest_amended :
    (∀ ideas : List Idea, (∀ i ∈ ideas, i.created_at ≠ Option.none) →
      (sortedIdeas .newest ideas).Pairwise
        (fun a b => b.created_at.getD 0 ≤ a.created_at.getD 0) ∧
      (sortedIdeas .newest ideas).Perm ideas) ∧
    (∀ a b : Idea, a.created_at = Option.none →
      ideaCmp .newest a b = 0 ∧ ideaCmp .newest b a = 0) ∧
    sortedIdeas .newest [ideaNoTs, ideaWithTs] = [ideaNoTs, ideaWithTs] := by
  refine ⟨?_, ?_, by decide⟩
  · intro ideas hvalid
    have hkey : ∀ i ∈ ideas, ∃ t, i.created_at = some t := by
      intro i hi
      cases hc : i.created_at
      · exact absurd hc (hvalid i hi)
      · exact ⟨_, rfl⟩
    refine ⟨?_, jsSort_perm _ _⟩
    have hp := jsSort_pairwise (ideaCmp .newest) ideas ?hA ?hT
    case hA =>
      intro a ha b hb hgt
      obtain ⟨ta, hta⟩ := hkey a ha
      obtain ⟨tb, htb⟩ := hkey b hb
      have e1 : ideaCmp .newest a b = tb - ta := by simp [ideaCmp, subNaN, hta, htb]
      have e2 : ideaCmp .newest b a = ta - tb := by simp [ideaCmp, subNaN, hta, htb]
      rw [e1] at hgt
      rw [e2]
      omega
    case hT =>
      intro a ha b hb c hc h1 h2
      obtain ⟨ta, hta⟩ := hkey a ha
      obtain ⟨tb, htb⟩ := hkey b hb
      obtain ⟨tc, htc⟩ := hkey c hc
      have e1 : ideaCmp .newest a b = tb - ta := by simp [ideaCmp, subNaN, hta, htb]
      have e2 : ideaCmp .newest b c = tc - tb := by simp [ideaCmp, subNaN, htb, htc]
      have e3 : ideaCmp .newest a c = tc - ta := by simp [ideaCmp, subNaN, hta, htc]
      rw [e1] at h1
      rw [e2] at h2
      rw [e3]
      omega
    refine hp.imp_of_mem ?_
    intro a b ha hb hrel
    have ha2 := (mem_jsSort _ _ _).mp ha
    have hb2 := (mem_jsSort _ _ _).mp hb
    obtain ⟨ta, hta⟩ := hkey a ha2
    obtain ⟨tb, htb⟩ := hkey b hb2
    have e1 : ideaCmp .newest a b = tb - ta := by simp [ideaCmp, subNaN, hta, htb]
    rw [e1] at hrel
    rw [hta, htb]
    simp only [Option.getD_some]
    omega
  · intro a b ha
    cases hb : b.created_at
    · constructor <;> simp [ideaCmp, subNaN, ha, hb]
    · constructor <;> simp [ideaCmp, subNaN, ha, hb]

/-- C4 witness: descending order and permutation instantiated at two
timestamped ideas, and the equal-comparison fact at the missing-timestamp
idea. -/
theorem sortedIdeas_newest_amended_witness :
    ((sortedIdeas .newest [ideaTs50, ideaWithTs]).Pairwise
        (fun a b => b.created_at.getD 0 ≤ a.created_at.getD 0) ∧
      (sortedIdeas .newest [ideaTs50, ideaWithTs]).Perm [ideaTs50, ideaWithTs]) ∧
    ideaCmp .newest ideaNoTs ideaWithTs = 0 :=
  ⟨sortedIdeas_newest_amended.1 [ideaTs50, ideaWithTs] (by decide),
    (sortedIdeas_newest_amended.2.1 ideaNoTs ideaWithTs rfl).1⟩

/-- C3: the urgent list holds at most 5 entries (the hard-coded limit),
every entry is an open task whose due date is today or tomorrow, the list is
sorted ascending by due instant, and the sort is stable — for every due
instant the subsequence with that due date is exactly the filtered input
subsequence. -/
theorem urgentDeadlines_spec :
    ∀ (items : List ActionItem) (now : Int),
      (urgentDeadlines items now).length ≤ 5 ∧
      (∀ item ∈ urgentDeadlines items now,
        item.status = .todo ∧
        (isToday (parseISO item.due_date) now = true ∨
         isTomorrow (parseISO item.due_date) now = true)) ∧
      (urgentDeadlines items now).Pairwise
        (fun a b => (parseISO a.due_date).getD 0 ≤ (parseISO b.due_date).getD 0) ∧
      ∀ v : Int,
        (jsSort dueCmp (items.filter (urgentPred now))).filter
            (fun item => parseISO item.due_date == some v) =
          (items.filter (urgentPred now)).filter
            (fun item => parseISO item.due_date == some v) := by
  intro items now
  have hmemF : ∀ item ∈ urgentDeadlines items now, item ∈ items.filter (urgentPred now) :=
    fun item hmem => (mem_jsSort _ _ _).mp (List.take_subset _ _ hmem)
  have hpredF : ∀ item ∈ items.filter (urgentPred now), urgentPred now item = true :=
    fun item hmem => (List.mem_filter.mp hmem).2
  have hvalid : ∀ item ∈ items.filter (urgentPred now),
      ∃ t, parseISO item.due_date = some t := by
    intro item hmem
    have hp := hpredF item hmem
    simp [urgentPred] at hp
    cases hc : parseISO item.due_date
    · rcases hp.2.2 with h | h
      · rw [hc] at h
        simp [isToday] at h
      · rw [hc] at h
        simp [isTomorrow] at h
    · exact ⟨_, rfl⟩
  refine ⟨List.length_take_le _ _, ?_, ?_, ?_⟩
  · intro item hmem
    have hp := hpredF item (hmemF item hmem)
    simp [urgentPred] at hp
    exact ⟨hp.2.1, hp.2.2⟩
  · have hp := jsSort_pairwise dueCmp (items.filter (urgentPred now)) ?hA ?hT
    case hA =>
      intro a ha b hb hgt
      obtain ⟨ta, hta⟩ := hvalid a ha
      obtain ⟨tb, htb⟩ := hvalid b hb
      have e1 : dueCmp a b = ta - tb := by simp [dueCmp, subNaN, hta, htb]
      have e2 : dueCmp b a = tb - ta := by simp [dueCmp, subNaN, hta, htb]
      rw [e1] at hgt
      rw [e2]
      omega
    case hT =>
      intro a ha b hb c hc h1 h2
      obtain ⟨ta, hta⟩ := hvalid a ha
      obtain ⟨tb, htb⟩ := hvalid b hb
      obtain ⟨tc, htc⟩ := hvalid c hc
      have e1 : dueCmp a b = ta - tb := by simp [dueCmp, subNaN, hta, htb]
      have e2 : dueCmp b c = tb - tc := by simp [dueCmp, subNaN, htb, htc]
      have e3 : dueCmp a c = ta - tc := by simp [dueCmp, subNaN, hta, htc]
      rw [e1] at h1
      rw [e2] at h2
      rw [e3]
      omega
    have hp2 := hp.sublist
      (List.take_sublist 5 (jsSort dueCmp (items.filter (urgentPred now))))
    refine hp2.imp_of_mem ?_
    intro a b ha hb hrel
    obtain ⟨ta, hta⟩ := hvalid a (hmemF a ha)
    obtain ⟨tb, htb⟩ := hvalid b (hmemF b hb)
    have e1 : dueCmp a b = ta - tb := by simp [dueCmp, subNaN, hta, htb]
    rw [e1] at hrel
    rw [hta, htb]
    simp only [Option.getD_some]
    omega
  · intro v
    refine jsSort_filter_eq _ _ _ ?_
    intro a _ hpa b _ hpb
    simp only [beq_iff_eq] at hpa hpb
    simp [dueCmp, subNaN, hpa, hpb]

/-- C3 witness: with a today-due and a tomorrow-due task, the today-due task
is in the urgent list and satisfies the per-entry property. -/
theorem urgentDeadlines_spec_witness :
    taskDay1 ∈ urgentDeadlines [taskDay2, taskDay1] (1 * 1440 + 100) ∧
    (taskDay1.status = .todo ∧
      (isToday (parseISO taskDay1.due_date) (1 * 1440 + 100) = true ∨
       isTomorrow (parseISO taskDay1.due_date) (1 * 1440 + 100) = true)) :=
  ⟨by decide,
    (urgentDeadlines_spec [taskDay2, taskDay1] (1 * 1440 + 100)).2.1 taskDay1 (by decide)⟩

end BdsPlanner
